import Mathlib

/-!
Verification of the JSON-extraction / retry core of the Hackathon repository
(`optimizer.py` and `app.py`).  Python functions are shallowly embedded as
executable Lean definitions over `List Char` / `String`; the effectful
OpenAI call is modelled as a pure backend stub `Nat → Except ApiErr α`
indexed by the call number, and the wrapper records how many calls and
sleeps it performed.
-/

/-! ### Python string primitives -/

/-- Characters treated as whitespace by Python `str.strip()` and by the
regex class `\s` (ASCII range). -/
def isPySpace (c : Char) : Bool :=
  c == ' ' || c == '\t' || c == '\n' || c == '\r' || c == '\x0b' || c == '\x0c'

/-- Python `str.lstrip` restricted to a character predicate. -/
def pyLstripBy (p : Char → Bool) (l : List Char) : List Char :=
  l.dropWhile p

/-- Python `str.rstrip` restricted to a character predicate. -/
def pyRstripBy (p : Char → Bool) (l : List Char) : List Char :=
  (l.reverse.dropWhile p).reverse

/-- Python `str.strip` restricted to a character predicate. -/
def pyStripBy (p : Char → Bool) (l : List Char) : List Char :=
  pyRstripBy p (pyLstripBy p l)

/-- Python `text.strip()` (no argument: strip whitespace at both ends). -/
def pyStrip (l : List Char) : List Char :=
  pyStripBy isPySpace l

/-- Python `s.startswith(p)`. -/
def startsWithL (l p : List Char) : Bool :=
  l.take p.length == p

/-- Python `p in s` (substring containment). -/
def containsL : List Char → List Char → Bool
  | [], p => p == []
  | l@(_ :: rest), p => startsWithL l p || containsL rest p

/-- Index of the first occurrence of `c` in `l`, if any. -/
def firstIdx? (c : Char) : List Char → Option Nat
  | [] => none
  | x :: rest => if x = c then some 0 else (firstIdx? c rest).map (· + 1)

/-- Index of the last occurrence of `c` in `l`, if any. -/
def lastIdx? (c : Char) (l : List Char) : Option Nat :=
  (firstIdx? c l.reverse).map (fun i => l.length - 1 - i)

/-- Model of the greedy regex searches `re.search(r"(\x7b(?:.|\n)*\x7d)", t)`
and `re.search(r"(\[(?:.|\n)*\])", t)` used by both `extract_json`
(`app.py`) and `_clean_json_from_text` (`optimizer.py`): the match, when it
exists, runs from the first opening delimiter to the last closing delimiter
of the whole text. -/
def grabSpan (op cl : Char) (l : List Char) : Option (List Char) :=
  match firstIdx? op l, lastIdx? cl l with
  | some i, some j => if i < j then some ((l.drop i).take (j - i + 1)) else none
  | _, _ => none

/-! ### Retry wrapper: `safe_openai_call` (optimizer.py, lines 8-25) -/

/-- Failure kinds of the completion backend.  `rateLimit` models
`openai.error.RateLimitError`, `apiConn` models
`openai.error.APIConnectionError`; the remaining kinds model exceptions not
caught by either `except` clause of `safe_openai_call`. -/
inductive ApiErr where
  | rateLimit
  | apiConn
  | badRequest
  | authFail
  | unknownTool
deriving DecidableEq

/-- An error kind is retried exactly when one of the two `except` clauses of
`safe_openai_call` catches it. -/
def retryable : ApiErr → Bool
  | .rateLimit => true
  | .apiConn => true
  | _ => false

/-- Observable outcome of one invocation of the retry wrapper:
`result = none` models the Python function falling off the end of its
`for` loop and implicitly returning `None`; `some (.ok a)` a normal return;
`some (.error e)` a raised exception.  `calls` counts invocations of the
wrapped function and `sleeps` records the successive `time.sleep` delays. -/
structure CallOutcome (α : Type) where
  result : Option (Except ApiErr α)
  calls : Nat
  sleeps : List Nat

/-- The body of `safe_openai_call`'s `for attempt in range(retries)` loop:
`i` is the index of the next backend call, `remaining` the number of loop
iterations left (`remaining = 1` on the final attempt, where a retryable
failure is re-raised instead of slept on). -/
def runAttempts {α : Type} (backend : Nat → Except ApiErr α) (i delay : Nat) :
    Nat → CallOutcome α
  | 0 => ⟨none, 0, []⟩
  | r + 1 =>
    match backend i with
    | .ok a => ⟨some (.ok a), 1, []⟩
    | .error e =>
      if retryable e then
        if r = 0 then
          ⟨some (.error e), 1, []⟩
        else
          let o := runAttempts backend (i + 1) (delay * 2) r
          ⟨o.result, o.calls + 1, delay :: o.sleeps⟩
      else ⟨some (.error e), 1, []⟩

/-- `safe_openai_call(func, *args, retries=4, initial_delay=2, **kwargs)`:
retry the backend on rate-limit / connection errors with exponential
backoff, re-raising on the last attempt and propagating every other
exception immediately. -/
def safe_openai_call {α : Type} (backend : Nat → Except ApiErr α)
    (retries : Nat := 4) (initial_delay : Nat := 2) : CallOutcome α :=
  runAttempts backend 0 initial_delay retries

/-! ### Lemmas about the retry loop -/

theorem runAttempts_ok {α : Type} (backend : Nat → Except ApiErr α) (a : α) :
    ∀ (m i delay r : Nat),
      (∀ k, k < m → ∃ e, backend (i + k) = Except.error e ∧ retryable e = true) →
      backend (i + m) = Except.ok a → m + 1 ≤ r →
      ∃ sl, runAttempts backend i delay r = ⟨some (Except.ok a), m + 1, sl⟩ := by
  intro m
  induction m with
  | zero =>
    intro i delay r _ hok hr
    obtain ⟨r', rfl⟩ : ∃ r', r = r' + 1 := ⟨r - 1, by omega⟩
    have hok' : backend i = Except.ok a := by simpa using hok
    exact ⟨[], by simp [runAttempts, hok']⟩
  | succ m ih =>
    intro i delay r hfail hok hr
    obtain ⟨r', rfl⟩ : ∃ r', r = r' + 1 := ⟨r - 1, by omega⟩
    obtain ⟨e, he, hre⟩ := hfail 0 (Nat.succ_pos m)
    rw [Nat.add_zero] at he
    have hr' : r' ≠ 0 := by omega
    obtain ⟨sl, hsl⟩ := ih (i + 1) (delay * 2) r'
      (fun k hk => by
        have := hfail (k + 1) (by omega)
        simpa [Nat.add_assoc, Nat.add_comm 1 k] using this)
      (by simpa [Nat.add_assoc, Nat.add_comm 1 m] using hok)
      (by omega)
    exact ⟨delay :: sl, by simp [runAttempts, he, hre, hr', hsl]⟩

theorem runAttempts_exhaust {α : Type} (backend : Nat → Except ApiErr α) :
    ∀ (r i delay m : Nat),
      (∀ k, k < m → ∃ e, backend (i + k) = Except.error e ∧ retryable e = true) →
      1 ≤ r → r ≤ m →
      ∃ e sl, runAttempts backend i delay r = ⟨some (Except.error e), r, sl⟩ ∧
        backend (i + r - 1) = Except.error e := by
  intro r
  induction r with
  | zero => intro i delay m _ h1 _; omega
  | succ r' ih =>
    intro i delay m hfail _ hr
    obtain ⟨e, he, hre⟩ := hfail 0 (by omega)
    rw [Nat.add_zero] at he
    by_cases hz : r' = 0
    · subst hz
      refine ⟨e, [], ?_, ?_⟩
      · simp [runAttempts, he, hre]
      · simpa using he
    · obtain ⟨e2, sl, hrun, hlast⟩ := ih (i + 1) (delay * 2) (m - 1)
        (fun k hk => by
          have := hfail (k + 1) (by omega)
          simpa [Nat.add_assoc, Nat.add_comm 1 k] using this)
        (by omega) (by omega)
      refine ⟨e2, delay :: sl, ?_, ?_⟩
      · simp [runAttempts, he, hre, hz, hrun]
      · have : i + 1 + r' - 1 = i + (r' + 1) - 1 := by omega
        rwa [this] at hlast

/-- C1: for a backend stub that fails with a retryable kind exactly `n`
times and then succeeds, `safe_openai_call` with `retries ≥ n + 1` succeeds
after exactly `n + 1` backend calls, and with `1 ≤ retries ≤ n` it raises
after exactly `retries` calls, propagating the error of the last call
made. -/
theorem c1_retry_count {α : Type} (backend : Nat → Except ApiErr α) (n : Nat) (a : α)
    (hfail : ∀ k, k < n → ∃ e, backend k = Except.error e ∧ retryable e = true)
    (hok : backend n = Except.ok a) (retries delay : Nat) :
    (n + 1 ≤ retries →
      ∃ sl, safe_openai_call backend retries delay =
        ⟨some (Except.ok a), n + 1, sl⟩) ∧
    (1 ≤ retries → retries ≤ n →
      ∃ e sl, safe_openai_call backend retries delay =
        ⟨some (Except.error e), retries, sl⟩ ∧
        backend (retries - 1) = Except.error e) := by
  constructor
  · intro hr
    exact runAttempts_ok backend a n 0 delay retries
      (fun k hk => by simpa using hfail k hk) (by simpa using hok) hr
  · intro h1 h2
    obtain ⟨e, sl, hrun, hlast⟩ := runAttempts_exhaust backend retries 0 delay n
      (fun k hk => by simpa using hfail k hk) h1 h2
    exact ⟨e, sl, hrun, by simpa using hlast⟩

/-- Witness for `c1_retry_count`: a stub failing twice with rate limits then
returning `37`; with `retries = 5` the wrapper succeeds after 3 calls, with
`retries = 2` it propagates the second rate-limit error after 2 calls. -/
theorem c1_retry_count_witness :
    (∃ sl, safe_openai_call
        (fun k => if k < 2 then Except.error ApiErr.rateLimit else Except.ok 37)
        5 2 = ⟨some (Except.ok 37), 3, sl⟩) ∧
    (∃ e sl, safe_openai_call
        (fun k => if k < 2 then Except.error ApiErr.rateLimit else Except.ok 37)
        2 2 = ⟨some (Except.error e), 2, sl⟩ ∧
        (if (1 : Nat) < 2 then Except.error ApiErr.rateLimit else Except.ok 37) =
          Except.error e) := by
  have h := c1_retry_count
    (fun k => if k < 2 then Except.error ApiErr.rateLimit else Except.ok (37 : Nat))
    2 37
    (fun k hk => ⟨ApiErr.rateLimit, by simp [hk], rfl⟩)
    (by simp)
  exact ⟨(h 5 2).1 (by omega), (h 2 2).2 (by omega) (by omega)⟩

/-- C2: a backend failure of a non-retryable kind on the first call is
propagated immediately: exactly one call, no sleeps, for every
`retries ≥ 1`. -/
theorem c2_nonretryable {α : Type} (backend : Nat → Except ApiErr α) (e : ApiErr)
    (hes : backend 0 = Except.error e) (hnr : retryable e = false)
    (retries delay : Nat) (hr : 1 ≤ retries) :
    safe_openai_call backend retries delay = ⟨some (Except.error e), 1, []⟩ := by
  obtain ⟨r', rfl⟩ : ∃ r', retries = r' + 1 := ⟨retries - 1, by omega⟩
  rw [safe_openai_call, runAttempts, hes]
  simp [hnr]

/-- Witness for `c2_nonretryable`: an authentication failure on the first
call is propagated after exactly one call even with `retries = 4`. -/
theorem c2_nonretryable_witness :
    safe_openai_call (fun _ => (Except.error ApiErr.authFail : Except ApiErr Nat)) 4 2 =
      ⟨some (Except.error ApiErr.authFail), 1, []⟩ :=
  c2_nonretryable (fun _ => Except.error ApiErr.authFail) ApiErr.authFail rfl rfl 4 2
    (by omega)

/-- C3 (code behaviour at the failing input): with `retries = 0` the
`for attempt in range(retries)` loop of `safe_openai_call` runs zero times
and the function falls through, silently returning `None` after zero
backend calls — no `ConfigError` (or any error) is raised. -/
theorem c3_zero_retries_silent {α : Type} (backend : Nat → Except ApiErr α)
    (delay : Nat) :
    safe_openai_call backend 0 delay = ⟨none, 0, []⟩ :=
  rfl

/-! ### JSON values and a model of `json.loads` -/

/-- JSON values as produced by `json.loads`.  Numbers keep their literal
token text (so no floating-point semantics is needed); `nan` / `inf` model
Python's acceptance of the non-standard constants `NaN`, `Infinity` and
`-Infinity`. -/
inductive JsonVal where
  | null
  | bool (b : Bool)
  | num (tok : String)
  | str (s : String)
  | nan
  | inf (neg : Bool)
  | arr (xs : List JsonVal)
  | obj (kvs : List (String × JsonVal))

/-- Python `d[k] = v` on a dict modelled as an ordered association list:
an existing key keeps its position, a new key is appended at the end. -/
def dictSet (d : List (String × JsonVal)) (k : String) (v : JsonVal) :
    List (String × JsonVal) :=
  if (d.lookup k).isSome then d.map (fun p => if p.1 == k then (p.1, v) else p)
  else d ++ [(k, v)]

/-- `dict(pairs)`: fold the parsed member list into a dict (a duplicate key
keeps its first position and its last value). -/
def mkDict (ps : List (String × JsonVal)) : List (String × JsonVal) :=
  ps.foldl (fun acc p => dictSet acc p.1 p.2) []

/-- JSON structural whitespace (the characters `json.loads` skips between
tokens). -/
def isJsonWs (c : Char) : Bool :=
  c == ' ' || c == '\t' || c == '\n' || c == '\r'

def skipWs (l : List Char) : List Char :=
  l.dropWhile isJsonWs

def isDigitC (c : Char) : Bool :=
  '0' ≤ c && c ≤ '9'

def hexVal? (c : Char) : Option Nat :=
  let n := c.toNat
  if 48 ≤ n ∧ n ≤ 57 then some (n - 48)
  else if 97 ≤ n ∧ n ≤ 102 then some (n - 87)
  else if 65 ≤ n ∧ n ≤ 70 then some (n - 55)
  else none

/-- Single-character escapes accepted after a backslash in a JSON string. -/
def escChar? : Char → Option Char
  | '"' => some '"'
  | '\\' => some '\\'
  | '/' => some '/'
  | 'b' => some '\x08'
  | 'f' => some '\x0c'
  | 'n' => some '\n'
  | 'r' => some '\r'
  | 't' => some '\t'
  | _ => none

/-- Body of a JSON string literal, after the opening quote: returns the
decoded characters and the input after the closing quote.  Unescaped
control characters are rejected (`json.loads` strict mode); a `\uXXXX`
escape is decoded directly (lone surrogate halves, which Python would keep,
fall back to `Char.ofNat`'s default and are not exercised here). -/
def parseStringBody : Nat → List Char → Option (List Char × List Char)
  | 0, _ => none
  | _ + 1, [] => none
  | f + 1, c :: rest =>
    if c = '"' then some ([], rest)
    else if c = '\\' then
      match rest with
      | [] => none
      | e :: rest2 =>
        if e = 'u' then
          match rest2 with
          | h1 :: h2 :: h3 :: h4 :: rest3 =>
            match hexVal? h1, hexVal? h2, hexVal? h3, hexVal? h4 with
            | some a, some b, some c2, some d =>
              match parseStringBody f rest3 with
              | some (cs, r) =>
                some (Char.ofNat (a * 4096 + b * 256 + c2 * 16 + d) :: cs, r)
              | none => none
            | _, _, _, _ => none
          | _ => none
        else
          match escChar? e with
          | some ch =>
            match parseStringBody f rest2 with
            | some (cs, r) => some (ch :: cs, r)
            | none => none
          | none => none
    else if c.toNat < 32 then none
    else
      match parseStringBody f rest with
      | some (cs, r) => some (c :: cs, r)
      | none => none

/-- Optional fraction part `(\.\d+)?` of the JSON number regex: returns the
matched characters (possibly none) and the rest. -/
def parseFracPart (l : List Char) : List Char × List Char :=
  match l with
  | '.' :: r =>
    let ds := r.takeWhile isDigitC
    if ds.isEmpty then ([], '.' :: r) else ('.' :: ds, r.dropWhile isDigitC)
  | _ => ([], l)

/-- Optional exponent part `([eE][-+]?\d+)?` of the JSON number regex. -/
def parseExpPart (l : List Char) : List Char × List Char :=
  match l with
  | c :: r =>
    if c = 'e' ∨ c = 'E' then
      match r with
      | s :: r2 =>
        if s = '+' ∨ s = '-' then
          let ds := r2.takeWhile isDigitC
          if ds.isEmpty then ([], c :: r) else (c :: s :: ds, r2.dropWhile isDigitC)
        else
          let ds := r.takeWhile isDigitC
          if ds.isEmpty then ([], c :: r) else (c :: ds, r.dropWhile isDigitC)
      | [] => ([], [c])
    else ([], c :: r)
  | [] => ([], [])

/-- JSON number token `-?(0|[1-9]\d*)(\.\d+)?([eE][-+]?\d+)?` (the
`NUMBER_RE` of Python's `json` package): returns the token characters and
the remaining input. -/
def parseNumTok (l : List Char) : Option (List Char × List Char) :=
  let p : List Char × List Char :=
    match l with
    | '-' :: r => (['-'], r)
    | _ => ([], l)
  match p.2 with
  | [] => none
  | c :: rest =>
    if c = '0' then
      let fr := parseFracPart rest
      let ex := parseExpPart fr.2
      some (p.1 ++ '0' :: (fr.1 ++ ex.1), ex.2)
    else if isDigitC c then
      let fr := parseFracPart (rest.dropWhile isDigitC)
      let ex := parseExpPart fr.2
      some (p.1 ++ (c :: rest.takeWhile isDigitC) ++ fr.1 ++ ex.1, ex.2)
    else none

/-- Consume a fixed literal token (`true`, `false`, `null`, `NaN`, ...). -/
def dropTok (tok : List Char) (l : List Char) : Option (List Char) :=
  if l.take tok.length == tok then some (l.drop tok.length) else none

mutual

/-- Recursive-descent model of `json.loads`' value parser: skips leading
whitespace and parses one JSON value, returning it and the unconsumed
input.  `Nat` is recursion fuel; `jsonLoads` supplies more than any input
can use, so `none` means a genuine parse failure. -/
def parseVal : Nat → List Char → Option (JsonVal × List Char)
  | 0, _ => none
  | f + 1, l0 =>
    match skipWs l0 with
    | [] => none
    | c :: rest =>
      if c = '\x7b' then
        match skipWs rest with
        | '\x7d' :: r2 => some (.obj [], r2)
        | _ =>
          match parseObjItems f rest with
          | some (kvs, r) => some (.obj (mkDict kvs), r)
          | none => none
      else if c = '[' then
        match skipWs rest with
        | ']' :: r2 => some (.arr [], r2)
        | _ =>
          match parseArrItems f rest with
          | some (vs, r) => some (.arr vs, r)
          | none => none
      else if c = '"' then
        match parseStringBody f rest with
        | some (cs, r) => some (.str (String.mk cs), r)
        | none => none
      else if c = 't' then
        match dropTok ['r', 'u', 'e'] rest with
        | some r => some (.bool true, r)
        | none => none
      else if c = 'f' then
        match dropTok ['a', 'l', 's', 'e'] rest with
        | some r => some (.bool false, r)
        | none => none
      else if c = 'n' then
        match dropTok ['u', 'l', 'l'] rest with
        | some r => some (.null, r)
        | none => none
      else if c = 'N' then
        match dropTok ['a', 'N'] rest with
        | some r => some (.nan, r)
        | none => none
      else if c = 'I' then
        match dropTok ['n', 'f', 'i', 'n', 'i', 't', 'y'] rest with
        | some r => some (.inf false, r)
        | none => none
      else if c = '-' then
        match dropTok ['I', 'n', 'f', 'i', 'n', 'i', 't', 'y'] rest with
        | some r => some (.inf true, r)
        | none =>
          match parseNumTok (c :: rest) with
          | some (tok, r) => some (.num (String.mk tok), r)
          | none => none
      else
        match parseNumTok (c :: rest) with
        | some (tok, r) => some (.num (String.mk tok), r)
        | none => none

/-- Elements of a non-empty JSON array, starting right after `[` (or after
a `,`): a trailing comma before `]` is a parse error, exactly as in
`json.loads`. -/
def parseArrItems : Nat → List Char → Option (List JsonVal × List Char)
  | 0, _ => none
  | f + 1, l =>
    match parseVal f l with
    | none => none
    | some (v, r) =>
      match skipWs r with
      | ']' :: r2 => some ([v], r2)
      | ',' :: r2 =>
        match parseArrItems f r2 with
        | some (vs, r3) => some (v :: vs, r3)
        | none => none
      | _ => none

/-- Members of a non-empty JSON object, starting right after `\x7b` (or
after a `,`): keys must be string literals and a trailing comma before
`\x7d` is a parse error. -/
def parseObjItems : Nat → List Char → Option (List (String × JsonVal) × List Char)
  | 0, _ => none
  | f + 1, l =>
    match skipWs l with
    | '"' :: r =>
      match parseStringBody f r with
      | some (key, r2) =>
        match skipWs r2 with
        | ':' :: r3 =>
          match parseVal f r3 with
          | some (v, r4) =>
            match skipWs r4 with
            | '\x7d' :: r5 => some ([(String.mk key, v)], r5)
            | ',' :: r5 =>
              match parseObjItems f r5 with
              | some (kvs, r6) => some ((String.mk key, v) :: kvs, r6)
              | none => none
            | _ => none
          | none => none
        | _ => none
      | none => none
    | _ => none

end

/-- `json.loads`: parse one JSON document and require only whitespace after
it ("Extra data" otherwise).  `none` models a raised `JSONDecodeError`. -/
def jsonLoads (s : String) : Option JsonVal :=
  match parseVal (2 * s.length + 2) s.data with
  | some (v, r) => if (skipWs r).isEmpty then some v else none
  | none => none

/-! ### The trailing-comma repair: `re.sub(r",\s*\x7d", "\x7d", _)` then
`re.sub(r",\s*\]", "\]", _)` (optimizer.py, lines 121-122) -/

/-- Does the regex `,\s*cl` match at the head of `l`?  (Greedy `\s*`
followed by a non-space `cl` is deterministic: the first non-space
character after the comma must be `cl`.) -/
def patHere (cl : Char) (l : List Char) : Bool :=
  match l with
  | c :: rest => c == ',' && ((rest.dropWhile isPySpace).head? == some cl)
  | [] => false

/-- Does `,\s*cl` match anywhere in `l`? -/
def hasPat (cl : Char) : List Char → Bool
  | [] => false
  | x :: rest => patHere cl (x :: rest) || hasPat cl rest

/-- One fuel step of `re.sub(",\s*cl", cl, l)`: on a match, emit `cl` and
resume scanning after the matched span (as `re.sub` does); otherwise copy
one character. -/
def subCF (cl : Char) : Nat → List Char → List Char
  | 0, l => l
  | _ + 1, [] => []
  | f + 1, x :: rest =>
    if x == ',' && ((rest.dropWhile isPySpace).head? == some cl) then
      cl :: subCF cl f (rest.dropWhile isPySpace).tail
    else
      x :: subCF cl f rest

/-- `re.sub(",\s*cl", cl, l)`: the fuel `l.length` is always sufficient
since every step consumes at least one character. -/
def reSubComma (cl : Char) (l : List Char) : List Char :=
  subCF cl l.length l

/-- The two-pass trailing-comma repair applied by `analyze_artifacts` when
strict parsing fails: first `,\s*\x7d` → `\x7d`, then `,\s*\]` → `\]`. -/
def fixTrailingCommas (l : List Char) : List Char :=
  reSubComma ']' (reSubComma '\x7d' l)

/-! ### Extraction: `extract_json` (app.py, lines 93-110) and
`_clean_json_from_text` (optimizer.py, lines 27-44) -/

/-- `extract_json` on the character list of the input (the `str` path of
the Python function; the non-`str` early return is outside this model's
input type). -/
def extractJsonL (l0 : List Char) : List Char :=
  let t := pyStrip l0
  if startsWithL t ['\x60', '\x60', '\x60'] then
    let t1 := pyLstripBy isPySpace (pyStripBy (· == '\x60') t)
    let t2 :=
      if startsWithL (t1.map Char.toLower) ['j', 's', 'o', 'n'] then
        pyLstripBy isPySpace (t1.drop 4)
      else t1
    pyStrip t2
  else if t.head? == some '\x60' && t.getLast? == some '\x60' then
    pyStrip (pyStripBy (· == '\x60') t)
  else
    match grabSpan '\x7b' '\x7d' t with
    | some m => m
    | none =>
      match grabSpan '[' ']' t with
      | some m => m
      | none => t

/-- `extract_json(text)`: strip a fenced code block (dropping a `json` tag),
or a single-backtick wrapper, or fall back to the greedy brace / bracket
span, or return the trimmed text unchanged. -/
def extract_json (text : String) : String :=
  String.mk (extractJsonL text.data)

/-- `_clean_json_from_text` on the character list of the input: pure JSON
(brace- or bracket-delimited after trimming) is returned as is, otherwise
the greedy brace span, then the greedy bracket span, else `None`. -/
def cleanJsonL (l0 : List Char) : Option (List Char) :=
  let t := pyStrip l0
  if (t.head? == some '\x7b' && t.getLast? == some '\x7d') ||
      (t.head? == some '[' && t.getLast? == some ']') then
    some t
  else
    match grabSpan '\x7b' '\x7d' t with
    | some m => some m
    | none =>
      match grabSpan '[' ']' t with
      | some m => some m
      | none => none

/-- `_clean_json_from_text(text)` (optimizer.py). -/
def _clean_json_from_text (text : String) : Option String :=
  (cleanJsonL text.data).map String.mk

/-! ### `analyze_artifacts` (optimizer.py, lines 46-131): the part of the
pipeline from the first raw model output onward.  The two backend calls are
modelled by their raw text results `raw` (first call) and `follow` (the
one-shot reformatting fallback); the `Nat` component counts how many times
the fallback re-invoked the backend (0 or 1). -/

/-- Exceptions the pipeline can raise after raw text was obtained. -/
inductive PipeErr where
  | parseFail
  | valueFail
  | attrFail
deriving DecidableEq

/-- `json.loads(json_text)` with the `except` fallback that repairs
trailing commas and retries once; `none` models the second
`json.loads` raising as well. -/
def loadsRepair (jt : String) : Option JsonVal :=
  match jsonLoads jt with
  | some v => some v
  | none => jsonLoads (String.mk (fixTrailingCommas jt.data))

/-- Known schema keys filled in by the `parsed.setdefault(...)` block. -/
def schemaKeys : List String :=
  ["risk_scores", "missing_coverage", "most_impactful_tests", "prioritized_plan"]

/-- `d.setdefault(k, v)`: insert `(k, v)` at the end only when `k` is
absent. -/
def dictSetdefault (d : List (String × JsonVal)) (k : String) (v : JsonVal) :
    List (String × JsonVal) :=
  if (d.lookup k).isSome then d else d ++ [(k, v)]

/-- The four `parsed.setdefault(key, [])` calls of `analyze_artifacts`. -/
def ensureKeys (d : List (String × JsonVal)) : List (String × JsonVal) :=
  schemaKeys.foldl (fun acc k => dictSetdefault acc k (JsonVal.arr [])) d

/-- Python truthiness of the extraction result (`if not json_text:`):
`None` and the empty string are falsy. -/
def optTruthy : Option String → Bool
  | some s => !s.isEmpty
  | none => false

/-- Parse one extracted slice and post-process it exactly as
`analyze_artifacts` does: strict parse, comma repair on failure, then the
`setdefault` block (which raises `AttributeError` on a non-dict). -/
def reportStep (jt : String) : Except PipeErr (List (String × JsonVal)) :=
  match loadsRepair jt with
  | none => .error .parseFail
  | some (JsonVal.obj kvs) => .ok (ensureKeys kvs)
  | some _ => .error .attrFail

/-- `analyze_artifacts` from the first raw model output `raw` onward:
if extraction of `raw` yields nothing truthy, re-invoke the backend once
(modelled by `follow`) and run the identical extraction/parse step on the
second output; a second extraction failure raises
`ValueError("Could not parse JSON from model output.")`. -/
def analyze_artifacts (raw follow : String) :
    Except PipeErr (List (String × JsonVal)) × Nat :=
  let j1 := _clean_json_from_text raw
  if optTruthy j1 then (reportStep (j1.getD ""), 0)
  else
    let j2 := _clean_json_from_text follow
    if optTruthy j2 then (reportStep (j2.getD ""), 1)
    else (.error .valueFail, 1)

/-! ### Test-plan enrichment (app.py, lines 115-190) -/

/-- `"\n".join("- " + c for c in xs)` as used by the HTML formatters. -/
def dashLines (xs : List String) : String :=
  String.intercalate "\n" (xs.map (fun c => "- " ++ c))

/-- The three-section text assembled by `format_missing_coverage_for_html`. -/
def missingCoverageText (coverage_summary missing_coverage_list rationale_list :
    List String) : String :=
  "With this test case:\n" ++ dashLines coverage_summary ++ "\n\n" ++
    "Missing coverage / what to be added:\n" ++ dashLines missing_coverage_list ++
    "\n\n" ++
    "Rationale of adding / what can be achieved after adding:\n" ++
    dashLines rationale_list

/-- `format_missing_coverage_for_html(item, ...)`: overwrite the
`missing_coverage` and `rationale` fields of `item` (in that order) with
`<pre>`-wrapped text and return the item. -/
def format_missing_coverage_for_html (item : List (String × JsonVal))
    (coverage_summary missing_coverage_list rationale_list : List String) :
    List (String × JsonVal) :=
  dictSet
    (dictSet item "missing_coverage"
      (JsonVal.str ("<pre>" ++
        missingCoverageText coverage_summary missing_coverage_list rationale_list ++
        "</pre>")))
    "rationale"
    (JsonVal.str ("<pre>\n" ++ dashLines rationale_list ++ "</pre>"))

/-- Is a number token (kept verbatim by the parser) numerically zero?  Used
for Python truthiness of numbers. -/
def numTokZero (tok : String) : Bool :=
  (tok.data.takeWhile (fun c => c ≠ 'e' ∧ c ≠ 'E')).all
    (fun c => c == '-' || c == '.' || c == '0')

/-- `(value or "")` followed by `.strip()` for a field read with
`item.get(...)`: falsy values give `""`, strings are kept, and a truthy
non-string makes `.strip()` raise `AttributeError` (`none`). -/
def strOrEmpty? : Option JsonVal → Option String
  | none => some ""
  | some JsonVal.null => some ""
  | some (JsonVal.bool b) => if b then none else some ""
  | some (JsonVal.num t) => if numTokZero t then some "" else none
  | some (JsonVal.str s) => some s
  | some JsonVal.nan => none
  | some (JsonVal.inf _) => none
  | some (JsonVal.arr xs) => if xs.isEmpty then some "" else none
  | some (JsonVal.obj kvs) => if kvs.isEmpty then some "" else none

/-- The body of `enforce_formatting_fallback` past the early return:
rebuild both fields from the raw strings.  `none` models the
`AttributeError` raised by `.strip()` on a truthy non-string. -/
def fallbackApply (item : List (String × JsonVal)) :
    Option (List (String × JsonVal)) :=
  match strOrEmpty? (item.lookup "missing_coverage"),
      strOrEmpty? (item.lookup "rationale") with
  | some m, some r =>
    let raw_missing := String.mk (pyStrip m.data)
    let raw_rationale := String.mk (pyStrip r.data)
    let fallback_text :=
      "With this test case:\n- (Original missing_coverage was returned in plain text)\n\n" ++
        "Missing coverage / what to be added:\n- " ++
        (if raw_missing.isEmpty then "None" else raw_missing) ++ "\n\n" ++
        "Rationale of adding / what can be achieved after adding:\n- " ++
        (if raw_rationale.isEmpty then "Not provided" else raw_rationale)
    some (dictSet
      (dictSet item "missing_coverage"
        (JsonVal.str ("<pre>" ++ fallback_text ++ "</pre>")))
      "rationale"
      (JsonVal.str ("<pre>- " ++
        (if raw_rationale.isEmpty then "Not provided" else raw_rationale) ++
        "</pre>")))
  | _, _ => none

/-- `enforce_formatting_fallback(item)`: leave the item untouched when
`missing_coverage` is already a `<pre>`-formatted string, otherwise rebuild
both fields. -/
def enforce_formatting_fallback (item : List (String × JsonVal)) :
    Option (List (String × JsonVal)) :=
  match item.lookup "missing_coverage" with
  | some (JsonVal.str s) =>
    if containsL s.data "<pre>".data then some item else fallbackApply item
  | _ => fallbackApply item

/-- A JSON array usable by `" ".join(...)`: all elements must be strings,
otherwise `join` raises `TypeError` (`none`). -/
def asStrList : List JsonVal → Option (List String)
  | [] => some []
  | JsonVal.str s :: rest => (asStrList rest).map (s :: ·)
  | _ :: _ => none

/-- `item.get("test_case_steps", [])` fed to `" ".join(...)`: a list of
strings joins normally, a missing key joins the empty list, a string joins
its characters, a dict joins its keys; anything else raises (`none`). -/
def stepStrings? : Option JsonVal → Option (List String)
  | none => some []
  | some (JsonVal.arr xs) => asStrList xs
  | some (JsonVal.str s) => some (s.data.map (fun ch => String.mk [ch]))
  | some (JsonVal.obj kvs) => some (kvs.map (·.1))
  | some _ => none

/-- The keyword set of the vcredist classification branch. -/
def vcKeywords : List String :=
  ["vcredist", "visual c++", "vc++", "runtime"]

def defaultCoverage : List String := ["Test steps executed successfully"]

def defaultMissing : List String := ["None identified"]

def defaultRationale : List String :=
  ["This test plan covers the essential functionalities."]

def vcCoverage : List String :=
  ["Client has vcredist installed",
   "Applications relying on vcredist can run successfully"]

def vcMissing : List String :=
  ["Verify vcredist post-installation for all clients",
   "Validate vcredist upgrade paths and old client handling",
   "Deploy applications relying on vcredist and validate"]

/-- The vcredist rationale list (the middle entry reproduces the source
file's mojibake apostrophe byte sequence as the three characters it decodes
to). -/
def vcRationale : List String :=
  ["Ensures the installation process installs required runtime correctly",
   "Ensures upgrades donâ€™t break dependent applications",
   "Confirms clients can run apps dependent on vcredist"]

/-- The keyword classification of `enrich_test_plan`: choose the vcredist
lists when any keyword occurs in the lower-cased space-joined steps,
otherwise the default lists. -/
def classifyLists (steps : List String) :
    List String × List String × List String :=
  let steps_text := (String.intercalate " " steps).map Char.toLower
  if vcKeywords.any (fun k => containsL steps_text.data k.data) then
    (vcCoverage, vcMissing, vcRationale)
  else
    (defaultCoverage, defaultMissing, defaultRationale)

/-- One iteration of `enrich_test_plan`'s loop on a single plan item:
classify by keywords in the lower-cased joined steps, apply the main
formatter, then the fallback wrapper. -/
def enrichItem (item : List (String × JsonVal)) :
    Option (List (String × JsonVal)) :=
  match stepStrings? (item.lookup "test_case_steps") with
  | none => none
  | some steps =>
    enforce_formatting_fallback
      (format_missing_coverage_for_html item (classifyLists steps).1
        (classifyLists steps).2.1 (classifyLists steps).2.2)

/-- Enrich every element of the `plan` list in order; a non-dict element
makes `item.get` raise (`none`). -/
def omapEnrich : List JsonVal → Option (List JsonVal)
  | [] => some []
  | JsonVal.obj item :: rest =>
    match enrichItem item, omapEnrich rest with
    | some item2, some ys => some (JsonVal.obj item2 :: ys)
    | _, _ => none
  | _ :: _ => none

/-- `enrich_test_plan(plan_data)`: rewrite the `missing_coverage` and
`rationale` fields of each item of `plan_data["plan"]` in place.  A missing
`plan` key iterates the empty default; an empty string or empty dict also
iterates nothing; any other non-list value, or a failing item, models a
raised exception (`none`). -/
def enrich_test_plan (pd : List (String × JsonVal)) :
    Option (List (String × JsonVal)) :=
  match pd.lookup "plan" with
  | none => some pd
  | some (JsonVal.arr xs) =>
    match omapEnrich xs with
    | some ys => some (dictSet pd "plan" (JsonVal.arr ys))
    | none => none
  | some (JsonVal.str s) => if s.isEmpty then some pd else none
  | some (JsonVal.obj kvs) => if kvs.isEmpty then some pd else none
  | some _ => none

/-! ### Association-list lemmas -/

theorem lookup_append (d e : List (String × JsonVal)) (k : String) :
    (d ++ e).lookup k =
      match d.lookup k with
      | some v => some v
      | none => e.lookup k := by
  induction d with
  | nil => simp [List.lookup]
  | cons p rest ih =>
    by_cases h : k == p.1
    · simp [List.lookup, h]
    · simp [List.lookup, h, ih]

theorem lookup_dictSetdefault_self (d : List (String × JsonVal)) (k : String)
    (v : JsonVal) :
    (dictSetdefault d k v).lookup k = some ((d.lookup k).getD v) := by
  unfold dictSetdefault
  cases hd : d.lookup k with
  | some w => simp [hd]
  | none => simp [hd, lookup_append, List.lookup]

theorem lookup_dictSetdefault_other (d : List (String × JsonVal)) (k k' : String)
    (v : JsonVal) (hne : k' ≠ k) :
    (dictSetdefault d k v).lookup k' = d.lookup k' := by
  unfold dictSetdefault
  cases hd : (d.lookup k).isSome with
  | true => simp [hd]
  | false =>
    have hb : (k' == k) = false := beq_eq_false_iff_ne.mpr hne
    simp only [hd, Bool.false_eq_true, if_false, lookup_append]
    cases hd' : d.lookup k' with
    | some w => simp
    | none => simp [List.lookup, hb]

theorem dictSetdefault_append (d : List (String × JsonVal)) (k : String)
    (v : JsonVal) : ∃ ext, dictSetdefault d k v = d ++ ext := by
  unfold dictSetdefault
  cases hd : (d.lookup k).isSome with
  | true => exact ⟨[], by simp [hd]⟩
  | false => exact ⟨[(k, v)], by simp [hd]⟩

/-- `ensureKeys` as a fold: lookups of present keys are preserved. -/
theorem ensureKeys_fold_lookup_some (ks : List String) (v0 : JsonVal) :
    ∀ (d : List (String × JsonVal)) (k : String) (v : JsonVal),
      d.lookup k = some v →
      (ks.foldl (fun acc k' => dictSetdefault acc k' v0) d).lookup k = some v := by
  induction ks with
  | nil => intro d k v h; simpa using h
  | cons k0 rest ih =>
    intro d k v h
    simp only [List.foldl_cons]
    apply ih
    by_cases he : k = k0
    · subst he
      rw [lookup_dictSetdefault_self, h]
      rfl
    · rw [lookup_dictSetdefault_other _ _ _ _ he, h]

theorem ensureKeys_fold_lookup_mem (ks : List String) (v0 : JsonVal) :
    ∀ (d : List (String × JsonVal)) (k : String), k ∈ ks → d.lookup k = none →
      (ks.foldl (fun acc k' => dictSetdefault acc k' v0) d).lookup k = some v0 := by
  induction ks with
  | nil => intro d k h; simp at h
  | cons k0 rest ih =>
    intro d k hmem hnone
    simp only [List.foldl_cons]
    by_cases he : k = k0
    · subst he
      apply ensureKeys_fold_lookup_some
      rw [lookup_dictSetdefault_self, hnone]
      rfl
    · have hmem' : k ∈ rest := by
        cases hmem with
        | head => exact absurd rfl he
        | tail _ h => exact h
      exact ih _ k hmem' (by rw [lookup_dictSetdefault_other _ _ _ _ he, hnone])

theorem ensureKeys_fold_append (ks : List String) (v0 : JsonVal) :
    ∀ d : List (String × JsonVal),
      ∃ ext, ks.foldl (fun acc k' => dictSetdefault acc k' v0) d = d ++ ext := by
  induction ks with
  | nil => intro d; exact ⟨[], by simp⟩
  | cons k0 rest ih =>
    intro d
    obtain ⟨e1, he1⟩ := dictSetdefault_append d k0 v0
    obtain ⟨e2, he2⟩ := ih (dictSetdefault d k0 v0)
    refine ⟨e1 ++ e2, ?_⟩
    rw [he1] at he2
    rw [List.foldl_cons, he1, he2, List.append_assoc]

/-- C6: after the `setdefault` block of `analyze_artifacts`, every schema
key is present — keeping the backend's value verbatim when it was present
and defaulting to an empty list when absent — and every key/value pair the
backend returned, including unknown extra keys, is preserved verbatim (the
result is the original mapping plus appended defaults). -/
theorem c6_default_filling (d : List (String × JsonVal)) :
    (∀ k, k ∈ schemaKeys → ((ensureKeys d).lookup k).isSome = true) ∧
    (∀ k, k ∈ schemaKeys → d.lookup k = none →
      (ensureKeys d).lookup k = some (JsonVal.arr [])) ∧
    (∀ k v, d.lookup k = some v → (ensureKeys d).lookup k = some v) ∧
    (∃ ext, ensureKeys d = d ++ ext) := by
  refine ⟨?_, ?_, ?_, ?_⟩
  · intro k hmem
    cases hd : d.lookup k with
    | some v =>
      rw [ensureKeys, ensureKeys_fold_lookup_some schemaKeys _ d k v hd]
      rfl
    | none =>
      rw [ensureKeys, ensureKeys_fold_lookup_mem schemaKeys _ d k hmem hd]
      rfl
  · intro k hmem hnone
    exact ensureKeys_fold_lookup_mem schemaKeys _ d k hmem hnone
  · intro k v h
    exact ensureKeys_fold_lookup_some schemaKeys _ d k v h
  · exact ensureKeys_fold_append schemaKeys _ d

/-- Witness for `c6_default_filling` on a mapping that already has one
schema key and one extra key: the extra pair survives verbatim, the present
schema key keeps its value, the absent ones default to `[]`. -/
theorem c6_default_filling_witness :
    (ensureKeys [("most_impactful_tests", JsonVal.str "x"),
        ("extra", JsonVal.num "7")]).lookup "extra" = some (JsonVal.num "7") ∧
    (ensureKeys [("most_impactful_tests", JsonVal.str "x"),
        ("extra", JsonVal.num "7")]).lookup "most_impactful_tests" =
      some (JsonVal.str "x") ∧
    (ensureKeys [("most_impactful_tests", JsonVal.str "x"),
        ("extra", JsonVal.num "7")]).lookup "risk_scores" =
      some (JsonVal.arr []) := by
  have h := c6_default_filling
    [("most_impactful_tests", JsonVal.str "x"), ("extra", JsonVal.num "7")]
  exact ⟨h.2.2.1 "extra" (JsonVal.num "7") rfl,
    h.2.2.1 "most_impactful_tests" (JsonVal.str "x") rfl,
    h.2.1 "risk_scores" (by simp [schemaKeys]) rfl⟩

/-! ### C4: when is the backend re-invoked? -/

/-- C4 counterexample: on raw output `\x7bx\x7d` extraction succeeds (a
candidate slice is found), strict parsing fails even after the
trailing-comma repair, and `analyze_artifacts` performs **zero** fallback
re-invocations — it raises instead — although the follow-up output would
have parsed; the claim demands exactly one re-invocation whenever the first
extraction+parse attempt fails entirely. -/
theorem c4_fallback_counterexample :
    _clean_json_from_text "\x7bx\x7d" = some "\x7bx\x7d" ∧
    loadsRepair "\x7bx\x7d" = none ∧
    analyze_artifacts "\x7bx\x7d" "\x7b\"risk_scores\": []\x7d" =
      (Except.error PipeErr.parseFail, 0) :=
  ⟨rfl, rfl, rfl⟩

/-- C4 (amended): the backend is re-invoked exactly once precisely when
extraction of the first output yields nothing truthy; the second output
then goes through the identical extraction/parse step exactly once more
(a second extraction failure raises `ValueError`).  When extraction of the
first output succeeds, no re-invocation happens even if parsing fails after
repair. -/
theorem c4_fallback_amended (raw follow : String) :
    (optTruthy (_clean_json_from_text raw) = true →
      analyze_artifacts raw follow =
        (reportStep ((_clean_json_from_text raw).getD ""), 0)) ∧
    (optTruthy (_clean_json_from_text raw) = false →
      analyze_artifacts raw follow =
        (if optTruthy (_clean_json_from_text follow) then
          reportStep ((_clean_json_from_text follow).getD "")
        else Except.error PipeErr.valueFail, 1)) := by
  constructor
  · intro h
    simp [analyze_artifacts, h]
  · intro h
    by_cases h2 : optTruthy (_clean_json_from_text follow)
    · simp [analyze_artifacts, h, h2]
    · simp [analyze_artifacts, h, h2]

/-- Witness for `c4_fallback_amended`: prose output without braces forces
exactly one fallback call, whose JSON output is parsed by the same step. -/
theorem c4_fallback_amended_witness :
    analyze_artifacts "no json here" "\x7b\"risk_scores\": [1]\x7d" =
      (if optTruthy (_clean_json_from_text "\x7b\"risk_scores\": [1]\x7d") then
        reportStep ((_clean_json_from_text "\x7b\"risk_scores\": [1]\x7d").getD "")
      else Except.error PipeErr.valueFail, 1) :=
  (c4_fallback_amended "no json here" "\x7b\"risk_scores\": [1]\x7d").2 rfl

/-! ### C9: extraction of delimiter-free text -/

/-- C9 counterexample: the raw text `42` is trimmed, unfenced and contains
no brace or bracket pair, so extraction returns it unchanged — but the
subsequent parse **succeeds** (`json.loads("42") = 42`), contradicting the
claim that it fails with a parse error. -/
theorem c9_scalar_counterexample :
    pyStrip "42".data = "42".data ∧
    grabSpan '\x7b' '\x7d' "42".data = none ∧
    grabSpan '[' ']' "42".data = none ∧
    extract_json "42" = "42" ∧
    jsonLoads "42" = some (JsonVal.num "42") :=
  ⟨rfl, rfl, rfl, rfl, rfl⟩

/-- C9 (amended): for raw text that, after trimming, has no fence or
backtick wrapper and no greedy brace/bracket span, extraction returns the
trimmed input unchanged (not a distinct failure value), and — provided the
trimmed text is not itself a valid JSON document, such as a bare scalar —
the subsequent parse fails. -/
theorem c9_no_delims_amended (raw : String)
    (hf : startsWithL (pyStrip raw.data) ['\x60', '\x60', '\x60'] = false)
    (hb : ((pyStrip raw.data).head? == some '\x60' &&
        (pyStrip raw.data).getLast? == some '\x60') = false)
    (h1 : grabSpan '\x7b' '\x7d' (pyStrip raw.data) = none)
    (h2 : grabSpan '[' ']' (pyStrip raw.data) = none)
    (h3 : jsonLoads (String.mk (pyStrip raw.data)) = none) :
    extract_json raw = String.mk (pyStrip raw.data) ∧
    jsonLoads (extract_json raw) = none := by
  have he : extract_json raw = String.mk (pyStrip raw.data) := by
    unfold extract_json extractJsonL
    simp only [hf, Bool.false_eq_true, if_false, hb, h1, h2]
  exact ⟨he, by rw [he]; exact h3⟩

/-- Witness for `c9_no_delims_amended` at the raw text `hello`. -/
theorem c9_no_delims_amended_witness :
    extract_json "hello" = String.mk (pyStrip "hello".data) ∧
    jsonLoads (extract_json "hello") = none :=
  c9_no_delims_amended "hello" rfl rfl rfl rfl rfl

/-! ### String-shape lemmas for the extraction theorems -/

theorem exists_concat_of_getLast? {l : List Char} {c : Char}
    (h : l.getLast? = some c) : ∃ t, l = t ++ [c] :=
  ⟨l.dropLast, (List.dropLast_append_getLast? c (by rw [h]; rfl)).symm⟩

theorem pyLstripBy_eq_self {p : Char → Bool} {l : List Char}
    (hh : ∀ c ∈ l.head?, p c = false) : pyLstripBy p l = l := by
  cases l with
  | nil => rfl
  | cons x rest =>
    have hx := hh x rfl
    simp [pyLstripBy, List.dropWhile_cons, hx]

theorem pyRstripBy_eq_self {p : Char → Bool} {l : List Char}
    (hl : ∀ c ∈ l.getLast?, p c = false) : pyRstripBy p l = l := by
  cases hc : l.getLast? with
  | none =>
    have : l = [] := List.getLast?_eq_none_iff.mp hc
    subst this; rfl
  | some c =>
    obtain ⟨t, rfl⟩ := exists_concat_of_getLast? hc
    have hpc := hl c (by rw [hc]; rfl)
    simp [pyRstripBy, List.dropWhile_cons, hpc]

theorem pyStripBy_eq_self {p : Char → Bool} {l : List Char}
    (hh : ∀ c ∈ l.head?, p c = false) (hl : ∀ c ∈ l.getLast?, p c = false) :
    pyStripBy p l = l := by
  rw [pyStripBy, pyLstripBy_eq_self hh, pyRstripBy_eq_self hl]

theorem startsWithL_cons_ne {a b : Char} (x p : List Char) (hab : a ≠ b) :
    startsWithL (a :: x) (b :: p) = false := by
  unfold startsWithL
  rw [List.length_cons, List.take_succ_cons]
  exact beq_eq_false_iff_ne.mpr (by simp [hab])

theorem firstIdx?_head (c : Char) (rest : List Char) :
    firstIdx? c (c :: rest) = some 0 := by
  simp [firstIdx?]

theorem lastIdx?_concat (c : Char) (t : List Char) :
    lastIdx? c (t ++ [c]) = some t.length := by
  simp [lastIdx?, List.reverse_append, firstIdx?_head]

theorem grabSpan_whole (op cl : Char) (t : List Char) :
    grabSpan op cl (op :: (t ++ [cl])) = some (op :: (t ++ [cl])) := by
  have h2 : lastIdx? cl (op :: (t ++ [cl])) = some (t.length + 1) := by
    have he : op :: (t ++ [cl]) = (op :: t) ++ [cl] := by simp
    rw [he, lastIdx?_concat, List.length_cons]
  have hssub : t.length + 1 - 0 + 1 = t.length + 2 := by omega
  rw [grabSpan, firstIdx?_head, h2]
  show (if 0 < t.length + 1 then
      some (List.take (t.length + 1 - 0 + 1) (List.drop 0 (op :: (t ++ [cl]))))
    else none) = some (op :: (t ++ [cl]))
  rw [if_pos (Nat.succ_pos _), List.drop_zero, hssub,
    List.take_of_length_le (by simp)]

/-! ### C7: extraction of a pure JSON object string -/

/-- C7: a well-formed JSON object string (it parses under `json.loads` and
is textually brace-delimited) is returned unchanged by both extraction
routines, and parsing the extracted slice succeeds. -/
theorem c7_pure_object (s : String) (v : JsonVal) (hp : jsonLoads s = some v)
    (hh : s.data.head? = some '\x7b') (hl : s.data.getLast? = some '\x7d') :
    extract_json s = s ∧ _clean_json_from_text s = some s ∧
    (jsonLoads (extract_json s)).isSome = true := by
  obtain ⟨x, hx⟩ : ∃ x, s.data = '\x7b' :: x := by
    cases hd : s.data with
    | nil => rw [hd] at hh; simp at hh
    | cons a y =>
      rw [hd] at hh
      simp only [List.head?_cons, Option.some.injEq] at hh
      exact ⟨y, by rw [hh]⟩
  have hxne : x ≠ [] := by
    intro hnil
    rw [hx, hnil] at hl
    simp at hl
  obtain ⟨t, ht⟩ : ∃ t, x = t ++ ['\x7d'] := by
    apply exists_concat_of_getLast?
    cases x with
    | nil => exact absurd rfl hxne
    | cons y ys =>
      rw [hx] at hl
      rwa [List.getLast?_cons_cons] at hl
  have hshape : s.data = '\x7b' :: (t ++ ['\x7d']) := by rw [hx, ht]
  have hstrip : pyStrip s.data = s.data := by
    apply pyStripBy_eq_self
    · intro c hc; rw [hh] at hc; cases hc; decide
    · intro c hc; rw [hl] at hc; cases hc; decide
  have hfence : startsWithL (pyStrip s.data) ['\x60', '\x60', '\x60'] = false := by
    rw [hstrip, hshape]; exact startsWithL_cons_ne _ _ (by decide)
  have hbt : ((pyStrip s.data).head? == some '\x60' &&
      (pyStrip s.data).getLast? == some '\x60') = false := by
    rw [hstrip, hh]
    simp
  have hspan : grabSpan '\x7b' '\x7d' (pyStrip s.data) = some s.data := by
    rw [hstrip, hshape]; exact grabSpan_whole _ _ _
  have hext : extract_json s = s := by
    unfold extract_json extractJsonL
    simp only [hfence, Bool.false_eq_true, if_false, hbt, hspan]
  have hclean : _clean_json_from_text s = some s := by
    unfold _clean_json_from_text cleanJsonL
    rw [hstrip]
    simp [hh, hl]
  exact ⟨hext, hclean, by rw [hext, hp]; rfl⟩

/-- Witness for `c7_pure_object` at the object string
`\x7b"a": 1\x7d`. -/
theorem c7_pure_object_witness :
    extract_json "\x7b\"a\": 1\x7d" = "\x7b\"a\": 1\x7d" ∧
    _clean_json_from_text "\x7b\"a\": 1\x7d" = some "\x7b\"a\": 1\x7d" ∧
    (jsonLoads (extract_json "\x7b\"a\": 1\x7d")).isSome = true :=
  c7_pure_object "\x7b\"a\": 1\x7d" (JsonVal.obj [("a", JsonVal.num "1")]) rfl rfl rfl

/-! ### C8: fenced code block tagged `json` -/

theorem dropWhile_append_sat {p : Char → Bool} {a : List Char} (b : List Char)
    (ha : ∀ c ∈ a, p c = true) :
    List.dropWhile p (a ++ b) = List.dropWhile p b := by
  induction a with
  | nil => rfl
  | cons c cs ih =>
    rw [List.cons_append, List.dropWhile_cons, ha c (by simp)]
    exact ih (fun c hc => ha c (by simp [hc]))

theorem pyRstripBy_append_sat {p : Char → Bool} (x : List Char) {d : List Char}
    (hd : ∀ c ∈ d, p c = true) :
    pyRstripBy p (x ++ d) = pyRstripBy p x := by
  rw [pyRstripBy, pyRstripBy, List.reverse_append,
    dropWhile_append_sat _ (fun c hc => hd c (List.mem_reverse.mp hc))]

/-- C8: for a trimmed, non-empty interior `x`, extracting
`` ```json\n<x>\n``` `` strips the fence delimiters and the `json` tag and
returns the interior verbatim. -/
theorem c8_fenced_json (x : List Char) (hne : x ≠ [])
    (hh : ∀ c ∈ x.head?, isPySpace c = false)
    (hl : ∀ c ∈ x.getLast?, isPySpace c = false) :
    extract_json (String.mk ('\x60' :: '\x60' :: '\x60' :: 'j' :: 's' :: 'o' :: 'n' ::
      '\n' :: (x ++ ['\n', '\x60', '\x60', '\x60']))) = String.mk x := by
  obtain ⟨xh, xt, rfl⟩ : ∃ xh xt, x = xh :: xt := by
    cases x with
    | nil => exact absurd rfl hne
    | cons a b => exact ⟨a, b, rfl⟩
  have hxh : isPySpace xh = false := hh xh rfl
  have hA : pyStrip ('\x60' :: '\x60' :: '\x60' :: 'j' :: 's' :: 'o' :: 'n' ::
      '\n' :: (xh :: xt ++ ['\n', '\x60', '\x60', '\x60'])) =
      '\x60' :: '\x60' :: '\x60' :: 'j' :: 's' :: 'o' :: 'n' ::
      '\n' :: (xh :: xt ++ ['\n', '\x60', '\x60', '\x60']) := by
    apply pyStripBy_eq_self
    · intro c hc; cases hc; decide
    · intro c hc
      have he : ('\x60' :: '\x60' :: '\x60' :: 'j' :: 's' :: 'o' :: 'n' ::
          '\n' :: (xh :: xt ++ ['\n', '\x60', '\x60', '\x60'])) =
          ('\x60' :: '\x60' :: '\x60' :: 'j' :: 's' :: 'o' :: 'n' ::
          '\n' :: (xh :: xt ++ ['\n', '\x60', '\x60'])) ++ ['\x60'] := by simp
      rw [he, List.getLast?_concat] at hc
      cases hc; decide
  have hC : pyLstripBy isPySpace (pyStripBy (fun c => c == '\x60')
      ('\x60' :: '\x60' :: '\x60' :: 'j' :: 's' :: 'o' :: 'n' ::
        '\n' :: (xh :: xt ++ ['\n', '\x60', '\x60', '\x60']))) =
      'j' :: 's' :: 'o' :: 'n' :: '\n' :: (xh :: xt ++ ['\n']) := by
    have hls : pyLstripBy (fun c => c == '\x60')
        ('\x60' :: '\x60' :: '\x60' :: 'j' :: 's' :: 'o' :: 'n' ::
          '\n' :: (xh :: xt ++ ['\n', '\x60', '\x60', '\x60'])) =
        'j' :: 's' :: 'o' :: 'n' :: '\n' :: (xh :: xt ++ ['\n', '\x60', '\x60', '\x60']) :=
      rfl
    have hre : 'j' :: 's' :: 'o' :: 'n' :: '\n' ::
        (xh :: xt ++ ['\n', '\x60', '\x60', '\x60']) =
        ('j' :: 's' :: 'o' :: 'n' :: '\n' :: (xh :: xt ++ ['\n'])) ++
          ['\x60', '\x60', '\x60'] := by simp
    have hgl : ('j' :: 's' :: 'o' :: 'n' :: '\n' :: (xh :: xt ++ ['\n'])).getLast? =
        some '\n' := by
      have he : ('j' :: 's' :: 'o' :: 'n' :: '\n' :: (xh :: xt ++ ['\n'])) =
          ('j' :: 's' :: 'o' :: 'n' :: '\n' :: xh :: xt) ++ ['\n'] := by simp
      rw [he, List.getLast?_concat]
    have hrs : pyStripBy (fun c => c == '\x60')
        ('\x60' :: '\x60' :: '\x60' :: 'j' :: 's' :: 'o' :: 'n' ::
          '\n' :: (xh :: xt ++ ['\n', '\x60', '\x60', '\x60'])) =
        'j' :: 's' :: 'o' :: 'n' :: '\n' :: (xh :: xt ++ ['\n']) := by
      rw [pyStripBy, hls, hre, pyRstripBy_append_sat _ (by intro c hc; fin_cases hc <;> rfl)]
      apply pyRstripBy_eq_self
      intro c hc
      rw [hgl] at hc
      cases hc
      rfl
    rw [hrs]
    rfl
  have hF : pyLstripBy isPySpace
      (('j' :: 's' :: 'o' :: 'n' :: '\n' :: (xh :: xt ++ ['\n'])).drop 4) =
      xh :: (xt ++ ['\n']) := by
    show List.dropWhile isPySpace ('\n' :: (xh :: xt ++ ['\n'])) = xh :: (xt ++ ['\n'])
    rw [List.dropWhile_cons]
    simp only [show isPySpace '\n' = true from rfl, if_true, List.cons_append,
      List.dropWhile_cons, hxh, Bool.false_eq_true, if_false]
  have hG : pyStrip (xh :: (xt ++ ['\n'])) = xh :: xt := by
    rw [pyStrip, pyStripBy,
      pyLstripBy_eq_self (fun c hc => by cases hc; exact hxh)]
    have he : xh :: (xt ++ ['\n']) = (xh :: xt) ++ ['\n'] := by simp
    rw [he, pyRstripBy_append_sat _ (by intro c hc; fin_cases hc; rfl)]
    exact pyRstripBy_eq_self hl
  have hB1 : startsWithL ('\x60' :: '\x60' :: '\x60' :: 'j' :: 's' :: 'o' :: 'n' ::
      '\n' :: (xh :: xt ++ ['\n', '\x60', '\x60', '\x60'])) ['\x60', '\x60', '\x60'] =
      true := rfl
  have hB2 : startsWithL (('j' :: 's' :: 'o' :: 'n' :: '\n' ::
      (xh :: xt ++ ['\n'])).map Char.toLower) ['j', 's', 'o', 'n'] = true := rfl
  show String.mk (extractJsonL _) = _
  unfold extractJsonL
  simp only [hA, hB1, hC, hB2, hF, hG, if_true]

/-- Witness for `c8_fenced_json` at the interior `\x7b"plan": []\x7d`. -/
theorem c8_fenced_json_witness :
    extract_json (String.mk ('\x60' :: '\x60' :: '\x60' :: 'j' :: 's' :: 'o' :: 'n' ::
      '\n' :: ("\x7b\"plan\": []\x7d".data ++ ['\n', '\x60', '\x60', '\x60']))) =
      String.mk "\x7b\"plan\": []\x7d".data :=
  c8_fenced_json "\x7b\"plan\": []\x7d".data (by decide)
    (by intro c hc; cases hc; rfl) (by intro c hc; cases hc; rfl)

/-! ### Lemmas about the `re.sub(",\s*cl", cl, _)` model -/

theorem dropWhile_append_first {p : Char → Bool} :
    ∀ (u : List Char) {y : Char} {ys : List Char} (R : List Char),
      List.dropWhile p u = y :: ys →
      List.dropWhile p (u ++ R) = y :: (ys ++ R) := by
  intro u
  induction u with
  | nil => intro y ys R h; simp at h
  | cons c cs ih =>
    intro y ys R h
    cases hp : p c with
    | true =>
      simp only [List.dropWhile_cons, hp, if_true] at h
      rw [List.cons_append]
      simp only [List.dropWhile_cons, hp, if_true]
      exact ih R h
    | false =>
      simp only [List.dropWhile_cons, hp, Bool.false_eq_true, if_false,
        List.cons.injEq] at h
      obtain ⟨rfl, rfl⟩ := h
      rw [List.cons_append]
      simp only [List.dropWhile_cons, hp, Bool.false_eq_true, if_false]

theorem subCF_noop (cl : Char) :
    ∀ (f : Nat) (l : List Char), l.length ≤ f → hasPat cl l = false →
      subCF cl f l = l := by
  intro f
  induction f with
  | zero => intro l _ _; rfl
  | succ f ih =>
    intro l hlen hnp
    cases l with
    | nil => rfl
    | cons x rest =>
      rw [hasPat, patHere] at hnp
      obtain ⟨h1, h2⟩ := Bool.or_eq_false_iff.mp hnp
      rw [subCF, h1]
      simp only [Bool.false_eq_true, if_false]
      rw [ih rest (by simpa using Nat.le_of_succ_le_succ hlen) h2]

theorem hasPat_append_false (cl : Char) {r : List Char}
    (hr : hasPat cl r = false)
    (hr1 : ∀ y ∈ r.head?, (y == cl) = false)
    (hr2 : ∀ y ∈ r.head?, isPySpace y = false) :
    ∀ u : List Char, hasPat cl u = false → hasPat cl (u ++ r) = false := by
  intro u
  induction u with
  | nil => intro _; simpa using hr
  | cons x u' ih =>
    intro hu
    rw [hasPat, patHere] at hu
    obtain ⟨h1, h2⟩ := Bool.or_eq_false_iff.mp hu
    rw [List.cons_append, hasPat, patHere]
    refine Bool.or_eq_false_iff.mpr ⟨?_, ih h2⟩
    cases hx : (x == ',') with
    | false => simp [hx]
    | true =>
      rw [Bool.true_and]
      rw [hx, Bool.true_and] at h1
      cases hdw : List.dropWhile isPySpace u' with
      | nil =>
        have hall : ∀ c ∈ u', isPySpace c = true := List.dropWhile_eq_nil_iff.mp hdw
        rw [dropWhile_append_sat _ hall]
        cases r with
        | nil => rfl
        | cons y rs =>
          rw [List.dropWhile_cons, hr2 y rfl]
          simp only [Bool.false_eq_true, if_false, List.head?_cons]
          have hy : y ≠ cl := beq_eq_false_iff_ne.mp (hr1 y rfl)
          exact beq_eq_false_iff_ne.mpr (by simpa using hy)
      | cons y ys =>
        rw [dropWhile_append_first u' r hdw]
        rw [hdw] at h1
        simpa using h1

theorem hasPat_spaces (cl : Char) {w : List Char}
    (hw : ∀ c ∈ w, isPySpace c = true) : hasPat cl w = false := by
  induction w with
  | nil => rfl
  | cons c cs ih =>
    rw [hasPat, patHere]
    refine Bool.or_eq_false_iff.mpr ⟨?_, ih (fun c hc => hw c (by simp [hc]))⟩
    have hc : (c == ',') = false := by
      refine beq_eq_false_iff_ne.mpr ?_
      intro hcc
      have := hw c (by simp)
      rw [hcc] at this
      exact absurd this (by decide)
    simp [hc]

theorem subCF_splice (cl : Char) (hcl1 : (',' == cl) = false)
    (hcl2 : isPySpace cl = false) {w : List Char}
    (hw : ∀ c ∈ w, isPySpace c = true) {v : List Char}
    (hv : hasPat cl v = false) :
    ∀ (u : List Char) (f : Nat), hasPat cl u = false →
      (u ++ ',' :: (w ++ cl :: v)).length ≤ f →
      subCF cl f (u ++ ',' :: (w ++ cl :: v)) = u ++ cl :: v := by
  intro u
  induction u with
  | nil =>
    intro f _ hlen
    simp only [List.nil_append, List.length_cons, List.length_append] at hlen ⊢
    obtain ⟨f', rfl⟩ : ∃ f', f = f' + 1 := ⟨f - 1, by omega⟩
    have hdw : List.dropWhile isPySpace (w ++ cl :: v) = cl :: v := by
      rw [dropWhile_append_sat _ hw, List.dropWhile_cons, hcl2]
      simp
    rw [subCF, hdw]
    simp only [List.head?_cons, List.tail_cons, beq_self_eq_true, Bool.and_self,
      if_true]
    rw [subCF_noop cl f' v (by simp at hlen; omega) hv]
  | cons x u' ih =>
    intro f hu hlen
    rw [hasPat, patHere] at hu
    obtain ⟨h1, h2⟩ := Bool.or_eq_false_iff.mp hu
    obtain ⟨f', rfl⟩ : ∃ f', f = f' + 1 := ⟨f - 1, by simp at hlen; omega⟩
    rw [List.cons_append, subCF]
    have hcond : (x == ',' &&
        ((List.dropWhile isPySpace (u' ++ ',' :: (w ++ cl :: v))).head? ==
          some cl)) = false := by
      cases hx : (x == ',') with
      | false => simp [hx]
      | true =>
        rw [Bool.true_and]
        rw [hx, Bool.true_and] at h1
        cases hdw : List.dropWhile isPySpace u' with
        | nil =>
          have hall : ∀ c ∈ u', isPySpace c = true :=
            List.dropWhile_eq_nil_iff.mp hdw
          rw [dropWhile_append_sat _ hall, List.dropWhile_cons]
          have hcsp : isPySpace ',' = false := rfl
          rw [hcsp]
          simp only [Bool.false_eq_true, if_false, List.head?_cons]
          simpa using hcl1
        | cons y ys =>
          rw [dropWhile_append_first u' _ hdw]
          rw [hdw] at h1
          simpa using h1
    rw [hcond]
    simp only [Bool.false_eq_true, if_false]
    rw [ih f' h2 (by simp at hlen ⊢; omega)]
    rfl

/-- The full two-pass repair removes a unique `,\s*cl` occurrence exactly,
leaving everything else unchanged. -/
theorem fixTrailingCommas_single (u w v : List Char) (c : Char)
    (hc : c = '\x7d' ∨ c = ']')
    (hw : ∀ ch ∈ w, isPySpace ch = true)
    (hu1 : hasPat '\x7d' u = false) (hu2 : hasPat ']' u = false)
    (hv1 : hasPat '\x7d' v = false) (hv2 : hasPat ']' v = false) :
    fixTrailingCommas (u ++ ',' :: (w ++ c :: v)) = u ++ c :: v := by
  cases hc with
  | inl hbrace =>
    subst hbrace
    have h1 : reSubComma '\x7d' (u ++ ',' :: (w ++ '\x7d' :: v)) =
        u ++ '\x7d' :: v := by
      rw [reSubComma]
      exact subCF_splice '\x7d' rfl rfl hw hv1 u _ hu1 (Nat.le_refl _)
    have hnp : hasPat ']' (u ++ '\x7d' :: v) = false := by
      refine hasPat_append_false ']' ?_ ?_ ?_ u hu2
      · rw [hasPat, patHere]
        simp [hv2]
      · intro y hy; cases hy; rfl
      · intro y hy; cases hy; rfl
    rw [fixTrailingCommas, h1, reSubComma,
      subCF_noop ']' _ _ (Nat.le_refl _) hnp]
  | inr hbracket =>
    subst hbracket
    have hnp : hasPat '\x7d' (u ++ ',' :: (w ++ ']' :: v)) = false := by
      refine hasPat_append_false '\x7d' ?_ ?_ ?_ u hu1
      · rw [hasPat, patHere]
        refine Bool.or_eq_false_iff.mpr ⟨?_, ?_⟩
        · have hdw : List.dropWhile isPySpace (w ++ ']' :: v) = ']' :: v := by
            rw [dropWhile_append_sat _ hw, List.dropWhile_cons]
            have : isPySpace ']' = false := rfl
            rw [this]
            simp
          rw [hdw]
          simp
        · refine hasPat_append_false '\x7d' ?_ ?_ ?_ w (hasPat_spaces _ hw)
          · rw [hasPat, patHere]
            simp [hv1]
          · intro y hy; cases hy; rfl
          · intro y hy; cases hy; rfl
      · intro y hy; cases hy; rfl
      · intro y hy; cases hy; rfl
    have h1 : reSubComma '\x7d' (u ++ ',' :: (w ++ ']' :: v)) =
        u ++ ',' :: (w ++ ']' :: v) := by
      rw [reSubComma]
      exact subCF_noop '\x7d' _ _ (Nat.le_refl _) hnp
    have h2 : reSubComma ']' (u ++ ',' :: (w ++ ']' :: v)) = u ++ ']' :: v := by
      rw [reSubComma]
      exact subCF_splice ']' rfl rfl hw hv2 u _ hu2 (Nat.le_refl _)
    rw [fixTrailingCommas, h1, h2]

/-! ### C5: the trailing-comma repair -/

/-- C5 counterexample: the JSON text
`\x7b"a": "x,\x7d", "b": [1,]\x7d` has exactly one (grammar-level)
trailing comma — the one inside `[1,]`; strict parsing fails, and the
repaired text parses, but the repair regex also rewrote the *string
literal* `"x,\x7d"` to `"x\x7d"`, so the result differs from parsing the
comma-free equivalent text: the claim's "same structured value" fails. -/
theorem c5_repair_counterexample :
    jsonLoads "\x7b\"a\": \"x,\x7d\", \"b\": [1,]\x7d" = none ∧
    _clean_json_from_text "\x7b\"a\": \"x,\x7d\", \"b\": [1,]\x7d" =
      some "\x7b\"a\": \"x,\x7d\", \"b\": [1,]\x7d" ∧
    String.mk (fixTrailingCommas "\x7b\"a\": \"x,\x7d\", \"b\": [1,]\x7d".data) =
      "\x7b\"a\": \"x\x7d\", \"b\": [1]\x7d" ∧
    jsonLoads "\x7b\"a\": \"x\x7d\", \"b\": [1]\x7d" =
      some (JsonVal.obj [("a", JsonVal.str "x\x7d"),
        ("b", JsonVal.arr [JsonVal.num "1"])]) ∧
    jsonLoads "\x7b\"a\": \"x,\x7d\", \"b\": [1]\x7d" =
      some (JsonVal.obj [("a", JsonVal.str "x,\x7d"),
        ("b", JsonVal.arr [JsonVal.num "1"])]) ∧
    JsonVal.obj [("a", JsonVal.str "x\x7d"), ("b", JsonVal.arr [JsonVal.num "1"])] ≠
      JsonVal.obj [("a", JsonVal.str "x,\x7d"),
        ("b", JsonVal.arr [JsonVal.num "1"])] := by
  refine ⟨rfl, rfl, rfl, rfl, rfl, ?_⟩
  simp

/-- C5 (amended): for a JSON text built from a valid document
`u ++ c :: v` (`c` a closing brace or bracket) by inserting one textual
trailing comma (plus whitespace) before `c`, with no other
comma-before-closer occurrence anywhere in the text — in particular none
inside string literals — a failing strict parse is followed by a repair
pass that removes exactly that comma, and the retried parse succeeds with
the same structured value as the comma-free equivalent. -/
theorem c5_repair_amended (u w v : List Char) (c : Char) (val : JsonVal)
    (hc : c = '\x7d' ∨ c = ']')
    (hw : ∀ ch ∈ w, isPySpace ch = true)
    (hu1 : hasPat '\x7d' u = false) (hu2 : hasPat ']' u = false)
    (hv1 : hasPat '\x7d' v = false) (hv2 : hasPat ']' v = false)
    (hfail : jsonLoads (String.mk (u ++ ',' :: (w ++ c :: v))) = none)
    (hok : jsonLoads (String.mk (u ++ c :: v)) = some val) :
    fixTrailingCommas (u ++ ',' :: (w ++ c :: v)) = u ++ c :: v ∧
    jsonLoads (String.mk (fixTrailingCommas (u ++ ',' :: (w ++ c :: v)))) =
      some val ∧
    loadsRepair (String.mk (u ++ ',' :: (w ++ c :: v))) = some val := by
  have hfix := fixTrailingCommas_single u w v c hc hw hu1 hu2 hv1 hv2
  refine ⟨hfix, ?_, ?_⟩
  · rw [hfix]; exact hok
  · rw [loadsRepair, hfail]
    show jsonLoads
      (String.mk (fixTrailingCommas (String.mk (u ++ ',' :: (w ++ c :: v))).data)) =
      some val
    rw [show (String.mk (u ++ ',' :: (w ++ c :: v))).data =
      u ++ ',' :: (w ++ c :: v) from rfl, hfix]
    exact hok

/-- Witness for `c5_repair_amended`: the text `\x7b"a": [1,]\x7d`,
whose comma-free equivalent is `\x7b"a": [1]\x7d`. -/
theorem c5_repair_amended_witness :
    fixTrailingCommas ("\x7b\"a\": [1".data ++ ',' :: ([] ++ ']' :: "\x7d".data)) =
      "\x7b\"a\": [1".data ++ ']' :: "\x7d".data ∧
    jsonLoads (String.mk (fixTrailingCommas
      ("\x7b\"a\": [1".data ++ ',' :: ([] ++ ']' :: "\x7d".data)))) =
      some (JsonVal.obj [("a", JsonVal.arr [JsonVal.num "1"])]) ∧
    loadsRepair (String.mk ("\x7b\"a\": [1".data ++ ',' :: ([] ++ ']' :: "\x7d".data))) =
      some (JsonVal.obj [("a", JsonVal.arr [JsonVal.num "1"])]) :=
  c5_repair_amended "\x7b\"a\": [1".data [] "\x7d".data ']'
    (JsonVal.obj [("a", JsonVal.arr [JsonVal.num "1"])])
    (Or.inr rfl) (by simp) rfl rfl rfl rfl rfl rfl

/-! ### Lemmas about `dictSet` (Python dict assignment) -/

theorem lookup_map_replace (k : String) (v : JsonVal) :
    ∀ d : List (String × JsonVal), (d.lookup k).isSome = true →
      (d.map (fun p => if p.1 == k then (p.1, v) else p)).lookup k = some v := by
  intro d
  induction d with
  | nil => intro h; simp [List.lookup] at h
  | cons p rest ih =>
    intro h
    by_cases hk : k = p.1
    · have hb : (p.1 == k) = true := beq_iff_eq.mpr hk.symm
      have hb' : (k == p.1) = true := beq_iff_eq.mpr hk
      rw [List.map_cons, if_pos hb]
      simp only [List.lookup, hb']
    · have hb : (p.1 == k) = false := beq_eq_false_iff_ne.mpr (Ne.symm hk)
      have hb' : (k == p.1) = false := beq_eq_false_iff_ne.mpr hk
      rw [List.map_cons, if_neg (by simp [hb])]
      simp only [List.lookup, hb']
      apply ih
      simp only [List.lookup, hb'] at h
      exact h

theorem lookup_dictSet_self (d : List (String × JsonVal)) (k : String)
    (v : JsonVal) : (dictSet d k v).lookup k = some v := by
  rw [dictSet]
  cases hd : (d.lookup k).isSome with
  | true =>
    simp only [hd, if_true]
    exact lookup_map_replace k v d hd
  | false =>
    simp only [hd, Bool.false_eq_true, if_false]
    have hnone : List.lookup k d = none := by
      cases ho : List.lookup k d with
      | none => rfl
      | some w => rw [ho] at hd; simp at hd
    rw [lookup_append, hnone]
    simp [List.lookup]

theorem lookup_map_replace_other (k k' : String) (v : JsonVal) (hne : k' ≠ k) :
    ∀ d : List (String × JsonVal),
      (d.map (fun p => if p.1 == k then (p.1, v) else p)).lookup k' =
        d.lookup k' := by
  intro d
  induction d with
  | nil => rfl
  | cons p rest ih =>
    by_cases hk : k' = p.1
    · have hb' : (k' == p.1) = true := beq_iff_eq.mpr hk
      cases hpk : (p.1 == k) with
      | true =>
        exact absurd (hk.trans (beq_iff_eq.mp hpk)) hne
      | false =>
        rw [List.map_cons, if_neg (by simp [hpk])]
        simp only [List.lookup, hb']
    · have hb' : (k' == p.1) = false := beq_eq_false_iff_ne.mpr hk
      cases hpk : (p.1 == k) with
      | true =>
        rw [List.map_cons, if_pos hpk]
        simp only [List.lookup, hb']
        exact ih
      | false =>
        rw [List.map_cons, if_neg (by simp [hpk])]
        simp only [List.lookup, hb']
        exact ih

theorem lookup_dictSet_other (d : List (String × JsonVal)) (k k' : String)
    (v : JsonVal) (hne : k' ≠ k) :
    (dictSet d k v).lookup k' = d.lookup k' := by
  rw [dictSet]
  cases hd : (d.lookup k).isSome with
  | true =>
    simp only [hd, if_true]
    exact lookup_map_replace_other k k' v hne d
  | false =>
    simp only [hd, Bool.false_eq_true, if_false]
    rw [lookup_append]
    have hb : (k' == k) = false := beq_eq_false_iff_ne.mpr hne
    cases hd' : d.lookup k' with
    | some w => rfl
    | none => simp [List.lookup, hb]

theorem map_fst_dictSet (d : List (String × JsonVal)) (k : String) (v : JsonVal)
    (hd : (d.lookup k).isSome = true) :
    (dictSet d k v).map Prod.fst = d.map Prod.fst := by
  rw [dictSet]
  simp only [hd, if_true, List.map_map]
  apply List.map_congr_left
  intro p _
  by_cases hpk : p.1 = k
  · simp [hpk]
  · simp [hpk]

/-! ### C10: the frame of `enrich_test_plan` -/

theorem enforce_format_id (item : List (String × JsonVal)) (a b c : List String) :
    enforce_formatting_fallback (format_missing_coverage_for_html item a b c) =
      some (format_missing_coverage_for_html item a b c) := by
  have hlook : (format_missing_coverage_for_html item a b c).lookup
      "missing_coverage" =
      some (JsonVal.str ("<pre>" ++ missingCoverageText a b c ++ "</pre>")) := by
    rw [format_missing_coverage_for_html]
    rw [lookup_dictSet_other _ _ _ _ (by decide)]
    exact lookup_dictSet_self _ _ _
  have hcont : containsL ('<' :: 'p' :: 'r' :: 'e' :: '>' ::
      ((missingCoverageText a b c).data ++ ['<', '/', 'p', 'r', 'e', '>']))
      ['<', 'p', 'r', 'e', '>'] = true := rfl
  unfold enforce_formatting_fallback
  rw [hlook]
  simp [hcont]

theorem enrichItem_frame (item item' : List (String × JsonVal))
    (h : enrichItem item = some item') :
    ∀ k, k ≠ "missing_coverage" → k ≠ "rationale" →
      item'.lookup k = item.lookup k := by
  intro k h1 h2
  unfold enrichItem at h
  cases hs : stepStrings? (item.lookup "test_case_steps") with
  | none => rw [hs] at h; simp at h
  | some steps =>
    rw [hs] at h
    have h' : some (format_missing_coverage_for_html item (classifyLists steps).1
        (classifyLists steps).2.1 (classifyLists steps).2.2) = some item' := by
      rw [← enforce_format_id]
      exact h
    have hitem : item' = format_missing_coverage_for_html item
        (classifyLists steps).1 (classifyLists steps).2.1
        (classifyLists steps).2.2 := (Option.some.injEq _ _ ▸ h').symm
    rw [hitem, format_missing_coverage_for_html,
      lookup_dictSet_other _ _ _ _ h2, lookup_dictSet_other _ _ _ _ h1]

theorem omapEnrich_length :
    ∀ xs ys, omapEnrich xs = some ys → ys.length = xs.length := by
  intro xs
  induction xs with
  | nil => intro ys h; simp [omapEnrich] at h; simp [← h]
  | cons x rest ih =>
    intro ys h
    cases x with
    | obj item =>
      rw [omapEnrich] at h
      cases he : enrichItem item with
      | none => rw [he] at h; simp at h
      | some item2 =>
        cases ho : omapEnrich rest with
        | none => rw [he, ho] at h; simp at h
        | some ys2 =>
          rw [he, ho] at h
          simp only [Option.some.injEq] at h
          rw [← h]
          simp [ih ys2 ho]
    | null => simp [omapEnrich] at h
    | bool b => simp [omapEnrich] at h
    | num t => simp [omapEnrich] at h
    | str s => simp [omapEnrich] at h
    | nan => simp [omapEnrich] at h
    | inf b => simp [omapEnrich] at h
    | arr zs => simp [omapEnrich] at h

theorem omapEnrich_pointwise :
    ∀ xs ys, omapEnrich xs = some ys →
      ∀ (i : Nat) (item : List (String × JsonVal)),
        xs[i]? = some (JsonVal.obj item) →
        ∃ item', ys[i]? = some (JsonVal.obj item') ∧
          enrichItem item = some item' := by
  intro xs
  induction xs with
  | nil => intro ys _ i item hi; simp at hi
  | cons x rest ih =>
    intro ys h i item hi
    cases x with
    | obj item0 =>
      rw [omapEnrich] at h
      cases he : enrichItem item0 with
      | none => rw [he] at h; simp at h
      | some item2 =>
        cases ho : omapEnrich rest with
        | none => rw [he, ho] at h; simp at h
        | some ys2 =>
          rw [he, ho] at h
          simp only [Option.some.injEq] at h
          subst h
          cases i with
          | zero =>
            simp only [List.getElem?_cons_zero, Option.some.injEq,
              JsonVal.obj.injEq] at hi
            subst hi
            exact ⟨item2, by simp, he⟩
          | succ i' =>
            simp only [List.getElem?_cons_succ] at hi ⊢
            exact ih ys2 ho i' item hi
    | null => simp [omapEnrich] at h
    | bool b => simp [omapEnrich] at h
    | num t => simp [omapEnrich] at h
    | str s => simp [omapEnrich] at h
    | nan => simp [omapEnrich] at h
    | inf b => simp [omapEnrich] at h
    | arr zs => simp [omapEnrich] at h

/-- C10: `enrich_test_plan` only rewrites the `missing_coverage` and
`rationale` fields of the items of the `plan` list: every other top-level
entry keeps its value, the top-level key sequence is unchanged, the plan
list keeps its length and order, and each plan item keeps every field other
than the two rewritten ones. -/
theorem c10_enrich_frame (pd pd' : List (String × JsonVal))
    (h : enrich_test_plan pd = some pd') :
    (∀ k, k ≠ "plan" → pd'.lookup k = pd.lookup k) ∧
    pd'.map Prod.fst = pd.map Prod.fst ∧
    (∀ xs, pd.lookup "plan" = some (JsonVal.arr xs) →
      ∃ ys, pd'.lookup "plan" = some (JsonVal.arr ys) ∧ ys.length = xs.length ∧
        ∀ (i : Nat) (item : List (String × JsonVal)),
          xs[i]? = some (JsonVal.obj item) →
          ∃ item', ys[i]? = some (JsonVal.obj item') ∧
            ∀ k, k ≠ "missing_coverage" → k ≠ "rationale" →
              item'.lookup k = item.lookup k) := by
  unfold enrich_test_plan at h
  cases hp : pd.lookup "plan" with
  | none =>
    rw [hp] at h
    change some pd = some pd' at h
    obtain rfl := Option.some.inj h
    refine ⟨fun k _ => rfl, rfl, ?_⟩
    intro xs hxs
    exact Option.noConfusion hxs
  | some val =>
    cases val with
    | arr xs0 =>
      rw [hp] at h
      change (match omapEnrich xs0 with
        | some ys => some (dictSet pd "plan" (JsonVal.arr ys))
        | none => none) = some pd' at h
      cases ho : omapEnrich xs0 with
      | none =>
        rw [ho] at h
        change (none : Option (List (String × JsonVal))) = some pd' at h
        exact Option.noConfusion h
      | some ys0 =>
        rw [ho] at h
        change some (dictSet pd "plan" (JsonVal.arr ys0)) = some pd' at h
        obtain rfl := Option.some.inj h
        have hsome : (pd.lookup "plan").isSome = true := by rw [hp]; rfl
        refine ⟨fun k hk => lookup_dictSet_other pd "plan" k _ hk,
          map_fst_dictSet pd _ _ hsome, ?_⟩
        intro xs hxs
        obtain rfl : xs0 = xs := by
          have := Option.some.inj hxs
          cases this
          rfl
        refine ⟨ys0, lookup_dictSet_self _ _ _, omapEnrich_length xs0 ys0 ho, ?_⟩
        intro i item hi
        obtain ⟨item', hy, he⟩ := omapEnrich_pointwise xs0 ys0 ho i item hi
        exact ⟨item', hy, enrichItem_frame item item' he⟩
    | str s =>
      rw [hp] at h
      change (if s.isEmpty = true then some pd else none) = some pd' at h
      cases hse : s.isEmpty with
      | false => rw [if_neg (by simp [hse])] at h; exact Option.noConfusion h
      | true =>
        rw [if_pos hse] at h
        obtain rfl := Option.some.inj h
        refine ⟨fun k _ => rfl, rfl, ?_⟩
        intro xs hxs
        exact JsonVal.noConfusion (Option.some.inj hxs)
    | obj kvs =>
      rw [hp] at h
      change (if kvs.isEmpty = true then some pd else none) = some pd' at h
      cases hse : kvs.isEmpty with
      | false => rw [if_neg (by simp [hse])] at h; exact Option.noConfusion h
      | true =>
        rw [if_pos hse] at h
        obtain rfl := Option.some.inj h
        refine ⟨fun k _ => rfl, rfl, ?_⟩
        intro xs hxs
        exact JsonVal.noConfusion (Option.some.inj hxs)
    | null =>
      rw [hp] at h
      change (none : Option (List (String × JsonVal))) = some pd' at h
      exact Option.noConfusion h
    | bool b =>
      rw [hp] at h
      change (none : Option (List (String × JsonVal))) = some pd' at h
      exact Option.noConfusion h
    | num t =>
      rw [hp] at h
      change (none : Option (List (String × JsonVal))) = some pd' at h
      exact Option.noConfusion h
    | nan =>
      rw [hp] at h
      change (none : Option (List (String × JsonVal))) = some pd' at h
      exact Option.noConfusion h
    | inf b =>
      rw [hp] at h
      change (none : Option (List (String × JsonVal))) = some pd' at h
      exact Option.noConfusion h

/-- Witness for `c10_enrich_frame`: on a concrete plan mapping, the
unrelated top-level key `other` is unchanged by the enrichment. -/
theorem c10_enrich_frame_witness :
    ∃ pd', enrich_test_plan [("plan", JsonVal.arr [JsonVal.obj
        [("functional_area", JsonVal.str "login"),
         ("test_case_steps", JsonVal.arr [JsonVal.str "open app"]),
         ("expected_result", JsonVal.str "ok")]]),
      ("other", JsonVal.num "1")] = some pd' ∧
      pd'.lookup "other" = some (JsonVal.num "1") := by
  have h : enrich_test_plan [("plan", JsonVal.arr [JsonVal.obj
        [("functional_area", JsonVal.str "login"),
         ("test_case_steps", JsonVal.arr [JsonVal.str "open app"]),
         ("expected_result", JsonVal.str "ok")]]),
      ("other", JsonVal.num "1")] =
      some ((enrich_test_plan [("plan", JsonVal.arr [JsonVal.obj
        [("functional_area", JsonVal.str "login"),
         ("test_case_steps", JsonVal.arr [JsonVal.str "open app"]),
         ("expected_result", JsonVal.str "ok")]]),
      ("other", JsonVal.num "1")]).getD []) := rfl
  have hf := (c10_enrich_frame _ _ h).1 "other" (by decide)
  refine ⟨_, h, ?_⟩
  rw [hf]
  rfl
